import Mathlib

/-!
Verification of the task-store hook in `src/src/hooks/useTasks.ts`.

The development has two layers.

* A JavaScript-value layer embedding `normalizeTasks` (lines 45-68 of the
  source), which receives untyped JSON data.  JavaScript numbers are modelled
  as `Option ℚ`, with `none` standing for `NaN` (the numeric operations the
  source performs are comparisons and `Number(...)` coercions, so rationals
  with an explicit `NaN` element are a faithful carrier).  ISO-8601 timestamp
  strings are represented by their epoch-millisecond time values: the source
  only ever produces them with `Date.toISOString()` (injective) and consumes
  them with `new Date(string)`; under this encoding the string form of a
  timestamp is its decimal rendering and date parsing is decimal parsing.
  Property access on `null`/`undefined` throws `TypeError` in JavaScript, so
  field access returns `Option` and `normalizeTasks` returns
  `Option (List NTask)`, `none` modelling a thrown exception.

* A store layer embedding the state held in the hook (`tasks`, `lastDeleted`)
  and the mutation closures `addTask` (147-164), `updateTask` (166-187),
  `deleteTask` (189-195), `undoDelete` (197-201), `clearLastDeleted`
  (204-206), and the keep-first deduplication filter of the secondary-load
  effect (108-115).  These operate on the TypeScript type `Task`, whose
  fields are modelled at their declared types (string ids and statuses,
  epoch-integer timestamps); `crypto.randomUUID()` results are passed in as
  explicit string parameters.
-/

namespace TaskGlitch

/-- JavaScript values, restricted to the shapes JSON deserialization and the
source can produce.  `num none` is `NaN`. -/
inductive JSValue where
  | undefined
  | null
  | bool (b : Bool)
  | num (n : Option ℚ)
  | str (s : String)
  | arr (elems : List JSValue)
  | obj (fields : List (String × JSValue))

/-- Property access `v[k]`.  On `null`/`undefined` it throws (`none`); on other
primitives it yields `undefined` (none of the accessed task fields exist on
primitive wrappers); on objects it yields the field or `undefined`. -/
def getField : JSValue → String → Option JSValue
  | .obj fields, k => some ((fields.lookup k).getD .undefined)
  | .null, _ => none
  | .undefined, _ => none
  | _, _ => some .undefined

/-- JavaScript truthiness. -/
def truthy : JSValue → Bool
  | .undefined => false
  | .null => false
  | .bool b => b
  | .num none => false
  | .num (some q) => decide (q ≠ 0)
  | .str s => decide (s ≠ "")
  | .arr _ => true
  | .obj _ => true

/-- Whitespace for the purposes of `StringToNumber` trimming. -/
def isWsChar (c : Char) : Bool :=
  c = ' ' ∨ c = '\t' ∨ c = '\n' ∨ c = '\r'

/-- Trim whitespace from both ends of a character list. -/
def trimChars (cs : List Char) : List Char :=
  ((cs.dropWhile isWsChar).reverse.dropWhile isWsChar).reverse

/-- Split a character list at every `'.'`. -/
def splitOnDot : List Char → List (List Char)
  | [] => [[]]
  | c :: cs =>
    if c = '.' then [] :: splitOnDot cs
    else
      match splitOnDot cs with
      | r :: rs => (c :: r) :: rs
      | [] => [[c]]

/-- Digits-only decimal parse of a nonempty digit list. -/
def parseNatChars (cs : List Char) : Option Nat :=
  if cs ≠ [] ∧ cs.all Char.isDigit then
    some (cs.foldl (fun a c => a * 10 + (c.toNat - 48)) 0)
  else none

/-- Unsigned decimal numeric literal (`12`, `12.5`, `.5`, `5.`). -/
def parseUnsignedQ (cs : List Char) : Option ℚ :=
  match splitOnDot cs with
  | [ip] => (parseNatChars ip).map (fun n => (n : ℚ))
  | [ip, fp] =>
    if ip = [] ∧ fp = [] then none
    else
      let ipv : Option Nat := if ip = [] then some 0 else parseNatChars ip
      let fpv : Option Nat := if fp = [] then some 0 else parseNatChars fp
      match ipv, fpv with
      | some i, some f => some ((i : ℚ) + (f : ℚ) / ((10 : ℚ) ^ fp.length))
      | _, _ => none
  | _ => none

/-- `Number(string)` (the `StringToNumber` coercion): trimmed empty string is
`0`, otherwise an optionally signed decimal literal; anything else is `NaN`.
(Hexadecimal, exponent and `Infinity` forms are not modelled; no claim
involves them.) -/
def strToNum (s : String) : Option ℚ :=
  match trimChars s.toList with
  | [] => some 0
  | '-' :: rest => (parseUnsignedQ rest).map (fun q => -q)
  | '+' :: rest => parseUnsignedQ rest
  | t => parseUnsignedQ t

/-- `Number(v)` (the `ToNumber` coercion); `none` is `NaN`.  Plain objects
coerce to `NaN` (via the string `[object Object]`); arrays are approximated as
`NaN` (their exact string-mediated coercion is not exercised by any claim). -/
def toNumber : JSValue → Option ℚ
  | .undefined => none
  | .null => some 0
  | .bool b => some (if b then 1 else 0)
  | .num n => n
  | .str s => strToNum s
  | .arr _ => none
  | .obj _ => none

/-- Strict equality `===`.  `NaN === x` is always false; comparisons between
an object/array operand and anything else are reference comparisons, which are
false in every use the source makes (one operand is always a fresh literal). -/
def strictEq : JSValue → JSValue → Bool
  | .undefined, .undefined => true
  | .null, .null => true
  | .bool a, .bool b => a == b
  | .num (some a), .num (some b) => a == b
  | .str a, .str b => a == b
  | _, _ => false

/-- Nullish coalescing `a ?? b`. -/
def nullishCoalesce (a b : JSValue) : JSValue :=
  match a with
  | .null => b
  | .undefined => b
  | _ => a

/-- Numeric payload of a value known to be a number (every application in this
file is to the result of `Number(...)` or to a numeric literal). -/
def numOf : JSValue → Option ℚ
  | .num n => n
  | _ => none

/-- `new Date(v)` as a time value; `none` is an Invalid Date.  Numeric
arguments are truncated toward zero (`ToIntegerOrInfinity`); strings are
parsed as timestamps under the epoch-integer encoding of ISO strings described
in the header. -/
def dateVal : JSValue → Option Int
  | .num (some q) => some (q.num / (q.den : Int))
  | .num none => none
  | .bool b => some (if b then 1 else 0)
  | .str s =>
    match s.toList with
    | '-' :: rest => (parseNatChars rest).map (fun n => -(n : Int))
    | cs => (parseNatChars cs).map (fun n => (n : Int))
  | _ => none

/-- Milliseconds in a day, `24 * 3600 * 1000`. -/
def dayMs : Int := 24 * 3600 * 1000

/-- The object built by the mapper inside `normalizeTasks` (source lines
56-66).  `createdAt` holds the time value of the ISO string the source stores
(`created.toISOString()`); `completedAt` holds the raw JavaScript value
(`t.completedAt || ...` passes raw input through unchanged). -/
structure NTask where
  id : JSValue
  title : JSValue
  revenue : Option ℚ
  timeTaken : ℚ
  priority : JSValue
  status : JSValue
  notes : JSValue
  createdAt : Int
  completedAt : JSValue

/-- One iteration of the `normalizeTasks` mapper (source lines 47-67) at index
`idx`.  `none` models a thrown exception: property access on a `null` or
`undefined` entry, or `toISOString` on an Invalid Date.  The dead `?? 0` of
line 59 is kept: its left operand is a number, hence never nullish. -/
def normalizeEntry (now : Int) (idx : Nat) (t : JSValue) : Option NTask :=
  match getField t "createdAt", getField t "completedAt", getField t "status",
        getField t "id", getField t "title", getField t "revenue",
        getField t "timeTaken", getField t "priority", getField t "notes" with
  | some rawCreatedAt, some rawCompletedAt, some rawStatus, some rawId,
    some rawTitle, some rawRevenue, some rawTimeTaken, some rawPriority,
    some rawNotes =>
    match (if truthy rawCreatedAt then dateVal rawCreatedAt
           else some (now - ((idx : Int) + 1) * dayMs)) with
    | none => none
    | some createdTime =>
      let completed : JSValue :=
        if truthy rawCompletedAt then rawCompletedAt
        else if strictEq rawStatus (.str "Done") then
          .str (toString (createdTime + dayMs))
        else .undefined
      some
        { id := rawId
          title := rawTitle
          revenue := numOf (nullishCoalesce (.num (toNumber rawRevenue))
                              (.num (some 0)))
          timeTaken :=
            match toNumber rawTimeTaken with
            | some q => if 0 < q then q else 1
            | none => 1
          priority := rawPriority
          status := rawStatus
          notes := rawNotes
          createdAt := createdTime
          completedAt := completed }
  | _, _, _, _, _, _, _, _, _ => none

/-- The indexed `map` over the entry list. -/
def normalizeList (now : Int) : Nat → List JSValue → Option (List NTask)
  | _, [] => some []
  | idx, t :: ts =>
    match normalizeEntry now idx t, normalizeList now (idx + 1) ts with
    | some nt, some rest => some (nt :: rest)
    | _, _ => none

/-- Is the value an array (`Array.isArray`)? -/
def JSValue.isArr : JSValue → Bool
  | .arr _ => true
  | _ => false

/-- `normalizeTasks(input)` (source lines 45-68):
`(Array.isArray(input) ? input : []).map(...)`. -/
def normalizeTasks (now : Int) (input : JSValue) : Option (List NTask) :=
  normalizeList now 0 (match input with | .arr l => l | _ => [])

/-- The TypeScript `Task` entity at its declared field types (string id,
title, priority and status; optional notes; `number` revenue and timeTaken,
with revenue kept as a JavaScript number — `none` is `NaN` — because
normalization can produce `NaN` revenue; ISO timestamps as epoch-millisecond
integers as described in the header). -/
structure Task where
  id : String
  title : String
  revenue : Option ℚ
  timeTaken : ℚ
  priority : String
  status : String
  notes : Option String
  createdAt : Int
  completedAt : Option Int
deriving DecidableEq

/-- The two state cells of the hook: `tasks` (line 39) and `lastDeleted`
(line 42).  `loading`/`error` play no part in the mutation claims. -/
structure StoreState where
  tasks : List Task
  lastDeleted : Option Task
deriving DecidableEq

/-- Argument of `addTask`: `Omit<Task, "id"> & { id?: string }`.  The input's
`createdAt`/`completedAt` members are always overridden by the spread on line
162 (`{ ...task, id, timeTaken, createdAt, completedAt }`), so they are
omitted from the model. -/
structure AddInput where
  id : Option String
  title : String
  revenue : Option ℚ
  timeTaken : ℚ
  priority : String
  status : String
  notes : Option String
deriving DecidableEq

/-- Identifier selection of `addTask` (source lines 149-155):
`task.id ?? crypto.randomUUID()`, regenerated once if already present.
`uuid1`/`uuid2` stand for the two potential `crypto.randomUUID()` results. -/
def chooseId (input : AddInput) (uuid1 uuid2 : String) (tasks : List Task) :
    String :=
  let id0 := input.id.getD uuid1
  if tasks.any (fun t => t.id == id0) then uuid2 else id0

/-- `addTask` (source lines 147-164). -/
def addTask (input : AddInput) (uuid1 uuid2 : String) (now : Int)
    (s : StoreState) : StoreState :=
  let id := chooseId input uuid1 uuid2 s.tasks
  let timeTaken := if input.timeTaken ≤ 0 then 1 else input.timeTaken
  let createdAt := now
  let status := input.status
  let completedAt : Option Int := if status = "Done" then some createdAt
                                  else none
  { s with
    tasks := s.tasks ++
      [{ id := id, title := input.title, revenue := input.revenue,
         timeTaken := timeTaken, priority := input.priority, status := status,
         notes := input.notes, createdAt := createdAt,
         completedAt := completedAt }] }

/-- `Partial<Task>`: each field is either absent (`none`) or present with a
value of the field's type.  For the optional `Task` fields the present value
is itself an `Option` (a patch may carry an explicit `undefined`, which the
spread copies). -/
structure TaskPatch where
  id : Option String := none
  title : Option String := none
  revenue : Option (Option ℚ) := none
  timeTaken : Option ℚ := none
  priority : Option String := none
  status : Option String := none
  notes : Option (Option String) := none
  createdAt : Option Int := none
  completedAt : Option (Option Int) := none
deriving DecidableEq

/-- The spread merge `{ ...t, ...patch }` of source line 170. -/
def mergePatch (t : Task) (p : TaskPatch) : Task :=
  { id := p.id.getD t.id
    title := p.title.getD t.title
    revenue := p.revenue.getD t.revenue
    timeTaken := p.timeTaken.getD t.timeTaken
    priority := p.priority.getD t.priority
    status := p.status.getD t.status
    notes := p.notes.getD t.notes
    createdAt := p.createdAt.getD t.createdAt
    completedAt := p.completedAt.getD t.completedAt }

/-- The first mapper of `updateTask` (source lines 168-179): merge the patch
onto the matching record and timestamp a transition into `Done`
(`!merged.completedAt` on an ISO string field is "field is unset", since ISO
strings are nonempty). -/
def updateMerge (id : String) (patch : TaskPatch) (now : Int) (t : Task) :
    Task :=
  if t.id ≠ id then t
  else
    let merged := mergePatch t patch
    if t.status ≠ "Done" ∧ merged.status = "Done" ∧ merged.completedAt = none
    then { merged with completedAt := some now }
    else merged

/-- The second mapper of `updateTask` (source lines 181-185): re-coerce
`timeTaken` (`patch.timeTaken ?? t.timeTaken`) when it is `≤ 0`, keyed on the
post-merge `t.id === id`. -/
def updateFix (id : String) (patch : TaskPatch) (t : Task) : Task :=
  if t.id = id ∧ (patch.timeTaken.getD t.timeTaken) ≤ 0
  then { t with timeTaken := 1 }
  else t

/-- `updateTask` (source lines 166-187). -/
def updateTask (id : String) (patch : TaskPatch) (now : Int)
    (s : StoreState) : StoreState :=
  let next := s.tasks.map (updateMerge id patch now)
  { s with tasks := next.map (updateFix id patch) }

/-- `deleteTask` (source lines 189-195): `lastDeleted` becomes
`prev.find(...) || null` and the collection is filtered. -/
def deleteTask (id : String) (s : StoreState) : StoreState :=
  { tasks := s.tasks.filter (fun t => !(t.id == id))
    lastDeleted := s.tasks.find? (fun t => t.id == id) }

/-- `undoDelete` (source lines 197-201). -/
def undoDelete (s : StoreState) : StoreState :=
  match s.lastDeleted with
  | none => s
  | some ld => { tasks := s.tasks ++ [ld], lastDeleted := none }

/-- `clearLastDeleted` (source lines 204-206). -/
def clearLastDeleted (s : StoreState) : StoreState :=
  { s with lastDeleted := none }

/-- The keep-first filter of the secondary-load effect (source lines 108-115),
with the `Set` of seen ids carried as a list.  `!task.id` drops a task whose
id is falsy; the only falsy string is `""`. -/
def dedupRun (seen : List String) : List Task → List Task
  | [] => []
  | t :: ts =>
    if t.id == "" || seen.contains t.id then dedupRun seen ts
    else t :: dedupRun (t.id :: seen) ts

/-- The whole dedup pass `prev.filter(...)` with an initially empty seen
set. -/
def dedupTasks (l : List Task) : List Task := dedupRun [] l

/-- States reachable from the initial store (`tasks = []`,
`lastDeleted = null`) by any sequence of the five mutation operations, with
arbitrary inputs, patches, ids, generated UUIDs and clock readings. -/
inductive Reachable : StoreState → Prop where
  | init : Reachable ⟨[], none⟩
  | add (input : AddInput) (u1 u2 : String) (now : Int) (s : StoreState) :
      Reachable s → Reachable (addTask input u1 u2 now s)
  | upd (id : String) (patch : TaskPatch) (now : Int) (s : StoreState) :
      Reachable s → Reachable (updateTask id patch now s)
  | del (id : String) (s : StoreState) :
      Reachable s → Reachable (deleteTask id s)
  | undo (s : StoreState) : Reachable s → Reachable (undoDelete s)
  | clear (s : StoreState) : Reachable s → Reachable (clearLastDeleted s)

/-- Reachability restricted to the operations under which id-uniqueness is
preserved: creation with fresh generated identifiers, updates whose patch
does not change `id`, deletion, and clearing the undo slot. -/
inductive ReachableSafe : StoreState → Prop where
  | init : ReachableSafe ⟨[], none⟩
  | add (input : AddInput) (u1 u2 : String) (now : Int) (s : StoreState) :
      ReachableSafe s → (∀ t ∈ s.tasks, t.id ≠ u1) →
      (∀ t ∈ s.tasks, t.id ≠ u2) →
      ReachableSafe (addTask input u1 u2 now s)
  | upd (id : String) (patch : TaskPatch) (now : Int) (s : StoreState) :
      ReachableSafe s → patch.id = none →
      ReachableSafe (updateTask id patch now s)
  | del (id : String) (s : StoreState) :
      ReachableSafe s → ReachableSafe (deleteTask id s)
  | clear (s : StoreState) :
      ReachableSafe s → ReachableSafe (clearLastDeleted s)

/-- A well-formed task with the given id, used in concrete scenarios. -/
def sampleTask (i : String) : Task :=
  { id := i, title := "t", revenue := some 0, timeTaken := 1,
    priority := "High", status := "Todo", notes := none,
    createdAt := 0, completedAt := none }

/-- A store holding one task `"a"` with a pending undo for task `"b"`. -/
def c1State : StoreState := ⟨[sampleTask "a"], some (sampleTask "b")⟩

/-- A raw input record whose `revenue` is the non-numeric string `"abc"`. -/
def c3Raw : JSValue :=
  .obj [("id", .str "t1"), ("title", .str "Deal"), ("revenue", .str "abc"),
        ("timeTaken", .num (some 2)), ("priority", .str "High"),
        ("status", .str "Todo"), ("createdAt", .num (some 1000))]

/-- A task with positive `timeTaken`. -/
def c5Task : Task := { sampleTask "x" with timeTaken := 5 }

/-- A patch that renames the record and sets a nonpositive `timeTaken`. -/
def c5Patch : TaskPatch := { id := some "z", timeTaken := some (-5) }

/-- Creation input with explicit id `"x"`. -/
def c6InA : AddInput :=
  { id := some "x", title := "A", revenue := some 1, timeTaken := 1,
    priority := "P", status := "Todo", notes := none }

/-- Creation input with explicit id `"y"`. -/
def c6InB : AddInput := { c6InA with id := some "y", title := "B" }

/-- A patch that only renames the record to `"y"`. -/
def c6Patch : TaskPatch := { id := some "y" }

/-- Create `"x"`, create `"y"`, then patch `"x"`'s id to `"y"`. -/
def c6BadState : StoreState :=
  updateTask "x" c6Patch 0
    (addTask c6InB "u2" "u3" 0 (addTask c6InA "u0" "u1" 0 ⟨[], none⟩))

/-- A task that is not `Done` but already carries a `completedAt`. -/
def c7Task : Task :=
  { sampleTask "x" with status := "InProgress", completedAt := some 5 }

/-- A patch that only moves the status to `Done`. -/
def c7Patch : TaskPatch := { status := some "Done" }

/-- Is the value a plain object (record-shaped)? -/
def JSValue.isObj : JSValue → Bool
  | .obj _ => true
  | _ => false

/-- A task that is already `Done` with a `completedAt` set. -/
def doneTask : Task :=
  { sampleTask "d" with status := "Done", completedAt := some 7 }

theorem dedupRun_mem_id_ne (l : List Task) :
    ∀ seen t, t ∈ dedupRun seen l → t.id ≠ "" := by
  induction l with
  | nil => intro seen t h; simp [dedupRun] at h
  | cons hd tl ih =>
    intro seen t h
    by_cases hdrop : (hd.id == "" || seen.contains hd.id) = true
    · rw [dedupRun, if_pos hdrop] at h
      exact ih seen t h
    · rw [dedupRun, if_neg hdrop] at h
      rcases List.mem_cons.mp h with rfl | hmem
      · simp only [Bool.or_eq_true, beq_iff_eq] at hdrop
        exact fun he => hdrop (Or.inl he)
      · exact ih _ t hmem

theorem normalizeList_some_length (now : Int) (l : List JSValue) :
    ∀ idx out, normalizeList now idx l = some out → out.length = l.length := by
  induction l with
  | nil =>
    intro idx out h
    rw [normalizeList] at h
    cases h
    rfl
  | cons t ts ih =>
    intro idx out h
    rw [normalizeList] at h
    cases he : normalizeEntry now idx t with
    | none => rw [he] at h; exact absurd h (by simp)
    | some nt =>
      cases hr : normalizeList now (idx + 1) ts with
      | none => rw [he, hr] at h; exact absurd h (by simp)
      | some rest =>
        rw [he, hr] at h
        cases h
        simp [ih (idx + 1) rest hr]

/-- C1: the claim says `delete` with an absent id leaves the UndoSlot's prior
content in place, but the code unconditionally stores the find result
(`prev.find(...) || null`), so a pending undo for task `"b"` is wiped by
deleting the absent id `"z"` even though the collection is untouched. -/
theorem c1_counterexample :
    c1State.tasks.all (fun t => !(t.id == "z")) = true ∧
    c1State.lastDeleted = some (sampleTask "b") ∧
    (deleteTask "z" c1State).tasks = c1State.tasks ∧
    (deleteTask "z" c1State).lastDeleted = none := by decide

/-- C1 (amended): `delete(id)` with an id absent from the collection leaves
the collection unchanged and raises no error, but always clears the UndoSlot
(rather than keeping its prior content). -/
theorem c1_delete_absent_clears_slot (s : StoreState) (id : String)
    (h : ∀ t ∈ s.tasks, t.id ≠ id) :
    deleteTask id s = ⟨s.tasks, none⟩ := by
  have h1 : s.tasks.filter (fun t => !(t.id == id)) = s.tasks :=
    List.filter_eq_self.mpr (fun a ha => by simp [h a ha])
  have h2 : s.tasks.find? (fun t => t.id == id) = none :=
    List.find?_eq_none.mpr (fun a ha => by simp [h a ha])
  simp [deleteTask, h1, h2]

theorem c1_delete_absent_clears_slot_witness :
    deleteTask "z" c1State = ⟨c1State.tasks, none⟩ :=
  c1_delete_absent_clears_slot c1State "z" (by decide)

/-- C3: the spec says `revenue` defaults to `0` when the raw value is not
coercible to a number, but `Number(t.revenue) ?? 0` never falls back to `0`
(`Number` never returns a nullish value), so the non-coercible string
`"abc"` produces `NaN` revenue (`none`), not `0`. -/
theorem c3_noncoercible_revenue_is_nan :
    toNumber (JSValue.str "abc") = none ∧
    (normalizeTasks 5000 (.arr [c3Raw])).map (fun l => l.map NTask.revenue)
      = some [none] := by decide

/-- C4: the claim says entries that are not record-shaped are skipped, but the
mapper of `normalizeTasks` filters nothing: the numeric (non-record) entry `5`
still yields an output record. -/
theorem c4_counterexample :
    JSValue.isObj (.num (some 5)) = false ∧
    (normalizeTasks 1000 (.arr [.num (some 5)])).map List.length = some 1 := by
  decide

/-- C4 (amended): normalization of any non-array input yields an empty
result; entries of an array are not shape-filtered — whenever normalization
returns (does not throw), it yields exactly one output record per input
entry, record-shaped or not. -/
theorem c4_nonarray_empty_no_skipping :
    (∀ (now : Int) (v : JSValue), v.isArr = false →
      normalizeTasks now v = some []) ∧
    (∀ (now : Int) (idx : Nat) (l : List JSValue) (out : List NTask),
      normalizeList now idx l = some out → out.length = l.length) := by
  constructor
  · intro now v h
    cases v with
    | arr l => simp [JSValue.isArr] at h
    | undefined => rfl
    | null => rfl
    | bool b => rfl
    | num n => rfl
    | str s => rfl
    | obj f => rfl
  · intro now idx l out h
    exact normalizeList_some_length now l idx out h

theorem c4_nonarray_empty_no_skipping_witness :
    normalizeTasks 7 (.str "q") = some [] ∧
    ([] : List NTask).length = ([] : List JSValue).length :=
  ⟨c4_nonarray_empty_no_skipping.1 7 (.str "q") rfl,
   c4_nonarray_empty_no_skipping.2 7 0 [] [] rfl⟩

/-- C5: the claim (and the source's own comment "Ensure timeTaken remains
> 0") requires `timeTaken > 0` after every update, but the re-coercion step is
keyed on the post-merge `t.id === id`; a patch that also changes the record's
id escapes it, leaving `timeTaken = -5` in the collection. -/
theorem c5_update_escapes_timetaken_coercion :
    0 < c5Task.timeTaken ∧
    c5Patch.timeTaken = some (-5) ∧
    (updateTask "x" c5Patch 0 ⟨[c5Task], none⟩).tasks.map Task.timeTaken
      = [(-5 : ℚ)] := by decide

/-- C10: the secondary dedup pass drops every record whose id is falsy (the
empty string), not only records whose id duplicates an earlier one: no member
of the collection with a falsy id survives the pass, unique or not. -/
theorem c10_dedup_removes_falsy_ids (l : List Task) (t : Task)
    (_hmem : t ∈ l) (hid : t.id = "") : t ∉ dedupTasks l :=
  fun hsurv => dedupRun_mem_id_ne l [] t hsurv hid

theorem c10_dedup_removes_falsy_ids_witness :
    sampleTask "" ∉ dedupTasks [sampleTask ""] :=
  c10_dedup_removes_falsy_ids [sampleTask ""] (sampleTask "")
    (by decide) rfl

theorem dedupRun_clean (l : List Task) : ∀ seen : List String,
    (∀ t ∈ dedupRun seen l, t.id ∉ seen) ∧
    ((dedupRun seen l).map Task.id).Nodup := by
  induction l with
  | nil =>
    intro seen
    refine ⟨fun t h => absurd h (by simp [dedupRun]), by simp [dedupRun]⟩
  | cons hd tl ih =>
    intro seen
    by_cases hdrop : (hd.id == "" || seen.contains hd.id) = true
    · rw [dedupRun, if_pos hdrop]
      exact ih seen
    · rw [dedupRun, if_neg hdrop]
      have hdseen : hd.id ∉ seen := by
        intro hc
        exact hdrop (by simp [hc])
      constructor
      · intro t h
        rcases List.mem_cons.mp h with rfl | hmem
        · exact hdseen
        · intro hc
          exact (ih (hd.id :: seen)).1 t hmem (List.mem_cons_of_mem _ hc)
      · rw [List.map_cons, List.nodup_cons]
        refine ⟨fun hc => ?_, (ih (hd.id :: seen)).2⟩
        obtain ⟨t, hmem, hteq⟩ := List.mem_map.mp hc
        exact (ih (hd.id :: seen)).1 t hmem (hteq ▸ List.mem_cons_self _ _)

theorem dedupRun_fixed (l : List Task) : ∀ seen : List String,
    (∀ t ∈ l, t.id ≠ "" ∧ t.id ∉ seen) → (l.map Task.id).Nodup →
    dedupRun seen l = l := by
  induction l with
  | nil => intro seen _ _; rfl
  | cons hd tl ih =>
    intro seen hclean hnodup
    obtain ⟨hdne, hdseen⟩ := hclean hd (List.mem_cons_self _ _)
    rw [dedupRun, if_neg (by simp [hdne, hdseen])]
    rw [List.map_cons, List.nodup_cons] at hnodup
    congr 1
    refine ih (hd.id :: seen) (fun t ht => ?_) hnodup.2
    obtain ⟨tne, tseen⟩ := hclean t (List.mem_cons_of_mem _ ht)
    refine ⟨tne, ?_⟩
    intro hc
    rcases List.mem_cons.mp hc with heq | hmem
    · exact hnodup.1 (heq ▸ List.mem_map_of_mem Task.id ht)
    · exact tseen hmem

theorem dedupRun_keeps_unique (l : List Task) : ∀ (seen : List String)
    (t : Task), t ∈ l → t.id ≠ "" → t.id ∉ seen →
    l.countP (fun u => u.id == t.id) = 1 → t ∈ dedupRun seen l := by
  induction l with
  | nil => intro seen t h; exact absurd h (by simp)
  | cons hd tl ih =>
    intro seen t hmem hne hseen hcount
    rw [List.countP_cons] at hcount
    by_cases hcase : (hd.id == t.id) = true
    · have hdeq : hd.id = t.id := by simpa using hcase
      rw [if_pos hcase] at hcount
      have htl : tl.countP (fun u => u.id == t.id) = 0 := by omega
      have hthd : t = hd := by
        rcases List.mem_cons.mp hmem with rfl | htmem
        · rfl
        · exfalso
          have : 0 < tl.countP (fun u => u.id == t.id) :=
            List.countP_pos_iff.mpr ⟨t, htmem, by simp⟩
          omega
      subst hthd
      rw [dedupRun, if_neg (by simp [hne, hseen])]
      exact List.mem_cons_self _ _
    · have hdne : hd.id ≠ t.id := by simpa using hcase
      rw [if_neg hcase] at hcount
      have htmem : t ∈ tl := by
        rcases List.mem_cons.mp hmem with rfl | htmem
        · exact absurd rfl hdne
        · exact htmem
      by_cases hdrop : (hd.id == "" || seen.contains hd.id) = true
      · rw [dedupRun, if_pos hdrop]
        exact ih seen t htmem hne hseen (by omega)
      · rw [dedupRun, if_neg hdrop]
        refine List.mem_cons_of_mem _ ?_
        refine ih (hd.id :: seen) t htmem hne ?_ (by omega)
        intro hc
        rcases List.mem_cons.mp hc with heq | hmemseen
        · exact hdne heq.symm
        · exact hseen hmemseen

/-- C2: idempotence holds, but the second half of the claim fails — the pass
removes a record whose id is unique when that id is falsy: a single task with
id `""` has a (trivially) unique id yet is dropped by the pass. -/
theorem c2_counterexample :
    ([sampleTask ""].map Task.id).Nodup ∧
    dedupTasks [sampleTask ""] = [] := by decide

/-- C2 (amended): the secondary dedup pass is idempotent — applying it once
or any number of times yields the same result — and it never removes a record
whose id is unique within the collection *and truthy (nonempty)*; records
with a unique but falsy (empty) id are removed. -/
theorem c2_dedup_idempotent_and_keeps_unique_truthy (l : List Task) :
    dedupTasks (dedupTasks l) = dedupTasks l ∧
    ∀ t ∈ l, t.id ≠ "" → l.countP (fun u => u.id == t.id) = 1 →
      t ∈ dedupTasks l := by
  constructor
  · refine dedupRun_fixed (dedupTasks l) [] (fun t ht => ?_)
      (dedupRun_clean l []).2
    exact ⟨dedupRun_mem_id_ne l [] t ht, by simp⟩
  · intro t hmem hne hcount
    exact dedupRun_keeps_unique l [] t hmem hne (by simp) hcount

theorem c2_dedup_idempotent_and_keeps_unique_truthy_witness :
    dedupTasks (dedupTasks [sampleTask "a"]) = dedupTasks [sampleTask "a"] ∧
    sampleTask "a" ∈ dedupTasks [sampleTask "a"] :=
  ⟨(c2_dedup_idempotent_and_keeps_unique_truthy [sampleTask "a"]).1,
   (c2_dedup_idempotent_and_keeps_unique_truthy [sampleTask "a"]).2
     (sampleTask "a") (by decide) (by decide) (by decide)⟩

theorem addTask_ids (input : AddInput) (u1 u2 : String) (now : Int)
    (s : StoreState) :
    (addTask input u1 u2 now s).tasks.map Task.id
      = s.tasks.map Task.id ++ [chooseId input u1 u2 s.tasks] := by
  simp [addTask]

theorem chooseId_fresh (input : AddInput) (u1 u2 : String)
    (tasks : List Task) (h2 : ∀ t ∈ tasks, t.id ≠ u2) :
    chooseId input u1 u2 tasks ∉ tasks.map Task.id := by
  unfold chooseId
  by_cases hex : tasks.any (fun t => t.id == input.id.getD u1) = true
  · rw [if_pos hex]
    intro hc
    obtain ⟨t, ht, hteq⟩ := List.mem_map.mp hc
    exact h2 t ht hteq
  · rw [if_neg hex]
    intro hc
    obtain ⟨t, ht, hteq⟩ := List.mem_map.mp hc
    exact hex (List.any_eq_true.mpr ⟨t, ht, by simp [hteq]⟩)

theorem updateMerge_id (id : String) (patch : TaskPatch) (now : Int)
    (t : Task) (h : patch.id = none) :
    (updateMerge id patch now t).id = t.id := by
  unfold updateMerge
  split
  · rfl
  · simp [mergePatch, h, apply_ite Task.id]

theorem updateFix_id (id : String) (patch : TaskPatch) (t : Task) :
    (updateFix id patch t).id = t.id := by
  unfold updateFix
  split <;> rfl

theorem updateTask_ids (id : String) (patch : TaskPatch) (now : Int)
    (s : StoreState) (h : patch.id = none) :
    (updateTask id patch now s).tasks.map Task.id = s.tasks.map Task.id := by
  show ((s.tasks.map (updateMerge id patch now)).map
      (updateFix id patch)).map Task.id = s.tasks.map Task.id
  rw [List.map_map, List.map_map]
  refine List.map_congr_left (fun t _ => ?_)
  show (updateFix id patch (updateMerge id patch now t)).id = t.id
  rw [updateFix_id, updateMerge_id id patch now t h]

theorem deleteTask_ids_sublist (id : String) (s : StoreState) :
    ((deleteTask id s).tasks.map Task.id).Sublist (s.tasks.map Task.id) :=
  (List.filter_sublist s.tasks).map Task.id

/-- C6: id-uniqueness is not an invariant of the full operation set.  The
state reached from the empty store by creating `"x"`, creating `"y"`, and
then updating `"x"` with the patch `{ id: "y" }` (updates merge arbitrary
`Partial<Task>` patches, `id` included) holds two records with id `"y"`. -/
theorem c6_counterexample :
    Reachable c6BadState ∧ ¬ (c6BadState.tasks.map Task.id).Nodup :=
  ⟨Reachable.upd "x" c6Patch 0 _
    (Reachable.add c6InB "u2" "u3" 0 _
      (Reachable.add c6InA "u0" "u1" 0 _ Reachable.init)),
   by decide⟩

/-- C6 (amended): id-uniqueness holds in every state reachable from the empty
store by create (with generated identifiers fresh for the current
collection), update with patches that do not carry `id`, delete, and
clearLastDeleted.  It is not preserved by id-carrying update patches (see the
counterexample), and undoDelete can likewise reintroduce a buffered id that
was re-created after the delete. -/
theorem c6_unique_ids_on_safe_ops (s : StoreState)
    (h : ReachableSafe s) : (s.tasks.map Task.id).Nodup := by
  induction h with
  | init => simp
  | add input u1 u2 now s hs h1 h2 ih =>
    rw [addTask_ids]
    simp only [List.nodup_append, List.nodup_cons, List.not_mem_nil,
      not_false_eq_true, List.nodup_nil, and_true, true_and]
    exact ⟨ih, by simpa [List.disjoint_singleton] using
      chooseId_fresh input u1 u2 s.tasks h2⟩
  | upd id patch now s hs hpid ih =>
    rw [updateTask_ids id patch now s hpid]
    exact ih
  | del id s hs ih =>
    exact List.Nodup.sublist (deleteTask_ids_sublist id s) ih
  | clear s hs ih => exact ih

theorem c6_unique_ids_on_safe_ops_witness :
    (((addTask c6InA "u0" "u1" 0 ⟨[], none⟩).tasks.map Task.id)).Nodup :=
  c6_unique_ids_on_safe_ops _
    (ReachableSafe.add c6InA "u0" "u1" 0 ⟨[], none⟩ ReachableSafe.init
      (by simp) (by simp))

/-- C7: the first clause of the claim fails — a record whose prior status is
not `Done` but whose `completedAt` is already set (reachable by moving a task
out of `Done`, since `completedAt` is never cleared) is updated into `Done`
without its `completedAt` being set to the current time: the guard
`!merged.completedAt` keeps the stale value `5` instead of the clock value
`99`. -/
theorem c7_counterexample :
    c7Task.status ≠ "Done" ∧ c7Patch.status = some "Done" ∧
    c7Patch.completedAt = none ∧
    (updateTask "x" c7Patch 99 ⟨[c7Task], none⟩).tasks.map Task.completedAt
      = [some 5] ∧
    some (5 : Int) ≠ some (99 : Int) := by decide

/-- C7 (amended): if the merge moves the record into `Done` from a different
prior status, did not itself supply `completedAt`, *and the record's
`completedAt` was previously unset*, then `completedAt` becomes the current
time; updating an already-`Done` record with status `Done` again (the patch
not supplying `completedAt`) leaves the existing `completedAt` unchanged. -/
theorem c7_completedat_on_update (t : Task) (patch : TaskPatch) (now : Int)
    (ld : Option Task)
    (hca : patch.completedAt = none) (hst : patch.status = some "Done") :
    (t.status ≠ "Done" → t.completedAt = none →
      (updateTask t.id patch now ⟨[t], ld⟩).tasks.map Task.completedAt
        = [some now]) ∧
    (t.status = "Done" →
      (updateTask t.id patch now ⟨[t], ld⟩).tasks.map Task.completedAt
        = [t.completedAt]) := by
  constructor
  · intro hnd hcan
    simp [updateTask, updateMerge, updateFix, mergePatch, hca, hst, hnd,
      hcan, apply_ite Task.completedAt]
  · intro hd
    simp [updateTask, updateMerge, updateFix, mergePatch, hca, hst, hd,
      apply_ite Task.completedAt]

theorem c7_completedat_on_update_witness :
    (updateTask (sampleTask "w").id c7Patch 42
        ⟨[sampleTask "w"], none⟩).tasks.map Task.completedAt = [some 42] ∧
    (updateTask doneTask.id c7Patch 42
        ⟨[doneTask], none⟩).tasks.map Task.completedAt
      = [doneTask.completedAt] :=
  ⟨(c7_completedat_on_update (sampleTask "w") c7Patch 42 none rfl rfl).1
     (by decide) rfl,
   (c7_completedat_on_update doneTask c7Patch 42 none rfl rfl).2 rfl⟩

/-- C8: `undoDelete` with a full UndoSlot appends the buffered record
unchanged to the end of the collection and empties the slot; with an empty
slot it is a no-op; and deleting a present record followed by two
`undoDelete` calls leaves that record's id present exactly once. -/
theorem c8_undo_semantics (s : StoreState) :
    (s.lastDeleted = none → undoDelete s = s) ∧
    (∀ ld : Task, s.lastDeleted = some ld →
      undoDelete s = ⟨s.tasks ++ [ld], none⟩) ∧
    (∀ id : String, (∃ t ∈ s.tasks, t.id = id) →
      (undoDelete (undoDelete (deleteTask id s))).tasks.countP
        (fun t => t.id == id) = 1) := by
  refine ⟨?_, ?_, ?_⟩
  · intro h
    simp [undoDelete, h]
  · intro ld h
    simp [undoDelete, h]
  · intro id hex
    obtain ⟨t0, ht0, hid0⟩ := hex
    cases hfind : s.tasks.find? (fun t => t.id == id) with
    | none =>
      exfalso
      have := List.find?_eq_none.mp hfind t0 ht0
      simp [hid0] at this
    | some target =>
      have htid : target.id = id := by simpa using List.find?_some hfind
      have hdel : deleteTask id s
          = ⟨s.tasks.filter (fun t => !(t.id == id)), some target⟩ := by
        simp [deleteTask, hfind]
      rw [hdel]
      rw [show undoDelete
          ⟨s.tasks.filter (fun t => !(t.id == id)), some target⟩
          = ⟨s.tasks.filter (fun t => !(t.id == id)) ++ [target], none⟩
          from rfl]
      rw [show undoDelete
          ⟨s.tasks.filter (fun t => !(t.id == id)) ++ [target],
           (none : Option Task)⟩
          = ⟨s.tasks.filter (fun t => !(t.id == id)) ++ [target], none⟩
          from rfl]
      rw [List.countP_append]
      have h0 : (s.tasks.filter (fun t => !(t.id == id))).countP
          (fun t => t.id == id) = 0 := by
        rw [List.countP_eq_zero]
        intro a ha
        simpa using (List.mem_filter.mp ha).2
      simp [h0, htid]

theorem c8_undo_semantics_witness :
    undoDelete ⟨[sampleTask "a"], none⟩ = ⟨[sampleTask "a"], none⟩ ∧
    undoDelete c1State = ⟨c1State.tasks ++ [sampleTask "b"], none⟩ ∧
    (undoDelete (undoDelete (deleteTask "a" c1State))).tasks.countP
      (fun t => t.id == "a") = 1 :=
  ⟨(c8_undo_semantics ⟨[sampleTask "a"], none⟩).1 rfl,
   (c8_undo_semantics c1State).2.1 (sampleTask "b") rfl,
   (c8_undo_semantics c1State).2.2 "a" ⟨sampleTask "a", by decide, rfl⟩⟩

/-- C9: creating twice with the same explicit id (absent from the current
collection) yields exactly one member with that id — the second call is not
rejected (both records are appended) and its colliding id is replaced by the
freshly generated identifier `u4`. -/
theorem c9_same_explicit_id_gets_fresh (s : StoreState)
    (in1 in2 : AddInput) (x u1 u2 u3 u4 : String) (n1 n2 : Int)
    (h1 : in1.id = some x) (h2 : in2.id = some x)
    (habs : ∀ t ∈ s.tasks, t.id ≠ x) (hfresh : u4 ≠ x) :
    ((addTask in2 u3 u4 n2 (addTask in1 u1 u2 n1 s)).tasks.map
      Task.id).count x = 1 ∧
    (addTask in2 u3 u4 n2 (addTask in1 u1 u2 n1 s)).tasks.length
      = s.tasks.length + 2 := by
  have hc1 : chooseId in1 u1 u2 s.tasks = x := by
    unfold chooseId
    rw [h1, Option.getD_some,
      if_neg (fun hc => by
        obtain ⟨t, ht, hteq⟩ := List.any_eq_true.mp hc
        exact habs t ht (by simpa using hteq))]
  have hids1 : (addTask in1 u1 u2 n1 s).tasks.map Task.id
      = s.tasks.map Task.id ++ [x] := by
    rw [addTask_ids, hc1]
  have hany : (addTask in1 u1 u2 n1 s).tasks.any
      (fun t => t.id == x) = true := by
    apply List.any_eq_true.mpr
    have hmem : x ∈ (addTask in1 u1 u2 n1 s).tasks.map Task.id := by
      rw [hids1]
      exact List.mem_append_right _ (List.mem_singleton.mpr rfl)
    obtain ⟨t, ht, hteq⟩ := List.mem_map.mp hmem
    exact ⟨t, ht, by simp [hteq]⟩
  have hc2 : chooseId in2 u3 u4 (addTask in1 u1 u2 n1 s).tasks = u4 := by
    unfold chooseId
    rw [h2, Option.getD_some, if_pos hany]
  have hlen : ∀ (inp : AddInput) (v1 v2 : String) (n : Int)
      (s' : StoreState),
      (addTask inp v1 v2 n s').tasks.length = s'.tasks.length + 1 := by
    intro inp v1 v2 n s'
    simp [addTask]
  constructor
  · rw [addTask_ids, hc2, hids1, List.count_append, List.count_append]
    have hz : (s.tasks.map Task.id).count x = 0 := by
      apply List.count_eq_zero.mpr
      intro hc
      obtain ⟨t, ht, hteq⟩ := List.mem_map.mp hc
      exact habs t ht hteq
    have hxu4 : x ≠ u4 := fun h => hfresh h.symm
    have hu4 : ([u4] : List String).count x = 0 :=
      List.count_eq_zero.mpr (by simpa using hxu4)
    simp [hz, hu4]
  · rw [hlen, hlen]

theorem c9_same_explicit_id_gets_fresh_witness :
    (((addTask c6InA "g3" "g4" 1
        (addTask c6InA "g1" "g2" 0 ⟨[], none⟩)).tasks.map
          Task.id).count "x" = 1) ∧
    (addTask c6InA "g3" "g4" 1
        (addTask c6InA "g1" "g2" 0 ⟨[], none⟩)).tasks.length
      = (⟨[], none⟩ : StoreState).tasks.length + 2 :=
  c9_same_explicit_id_gets_fresh ⟨[], none⟩ c6InA c6InA "x" "g1" "g2"
    "g3" "g4" 0 1 rfl rfl (by simp) (by decide)

end TaskGlitch
